import Mathlib

/-!
Verification of the Painel Leads Lite browser client (static/js/app.js and the
unnamed source parts, which hold near-duplicate variants of the same file).
The JavaScript is shallowly embedded: strings are Lean `String` / `List Char`,
JS `null`/`undefined` inputs are `Option`, and the debounced fetch cycle is a
small event-step machine.  Three variants of the client appear in the sources:
the "legacy ||" variant (app.js lines 1-465), the "chips + dropdown" variant
(app.js lines 467-1101, same as unnamed/part_001) and the "TomSelect" variant
(app.js lines 1103-1350, same as the tail of unnamed/part_000).  Definitions
name the source function they embed and the variant they come from.
-/

/-! ## Character and string helpers (models of the JS string primitives) -/

/-- Model of the whitespace class used by `String.prototype.trim` (ASCII
whitespace; the JS class also has rarer Unicode spaces, not used here). -/
def isWsp (c : Char) : Bool := c.isWhitespace

/-- Drops trailing whitespace; helper for the `trim` model. -/
def dropTrailingWs : List Char → List Char
  | [] => []
  | c :: t =>
    let r := dropTrailingWs t
    if r.isEmpty && isWsp c then [] else c :: r

/-- Model of `String.prototype.trim` on the character list: remove leading and
trailing whitespace. -/
def trimChars (l : List Char) : List Char := dropTrailingWs (l.dropWhile isWsp)

/-- Model of `String.prototype.trim`. -/
def jsTrimS (s : String) : String := String.mk (trimChars s.data)

/-- Model of `String.prototype.toUpperCase` on one character, for the ASCII and
Latin-1 letters that occur in this client's data (the Unicode simple uppercase
mapping on a-z and on à-þ except ÷; other characters map to themselves). -/
def jsUpperChar (c : Char) : Char :=
  if 97 ≤ c.toNat && c.toNat ≤ 122 then Char.ofNat (c.toNat - 32)
  else if 224 ≤ c.toNat && c.toNat ≤ 254 && c.toNat ≠ 247 then Char.ofNat (c.toNat - 32)
  else c

/-- Model of `String.prototype.toUpperCase`. -/
def jsUpperS (s : String) : String := String.mk (s.data.map jsUpperChar)

/-- Bool test that `ned` is a prefix of `hay`; helper for the
`String.prototype.includes` model. -/
def headMatch : List Char → List Char → Bool
  | [], _ => true
  | _ :: _, [] => false
  | a :: as, b :: bs => a == b && headMatch as bs

/-- Model of `hay.includes(ned)` for JS strings: `ned` occurs as a contiguous
substring of `hay`. -/
def hasSub (ned : List Char) : List Char → Bool
  | [] => headMatch ned []
  | c :: t => headMatch ned (c :: t) || hasSub ned (t)

/-! ## escapeHtml and table rendering (app.js lines 27-35 and 136-163; the same
function bodies recur in every variant) -/

/-- Model of `String.prototype.replaceAll` for a one-character pattern. -/
def replAll (s : List Char) (c : Char) (r : List Char) : List Char :=
  s.flatMap (fun x => if x = c then r else [x])

/-- The five-stage replacement chain of `escapeHtml` on character lists, in
source order: &, <, >, double quote, single quote. -/
def escapeChain (l : List Char) : List Char :=
  replAll (replAll (replAll (replAll (replAll l '&' ("&amp;").data)
    '<' ("&lt;").data) '>' ("&gt;").data)
    (Char.ofNat 34) ("&quot;").data) (Char.ofNat 39) ("&#039;").data

/-- `escapeHtml` (app.js lines 27-35): `null`/`undefined` (here `none`) gives
the empty string, otherwise the five `replaceAll` calls run in order. -/
def escapeHtml (v : Option String) : String :=
  match v with
  | none => ""
  | some s => String.mk (escapeChain s.data)

/-- The per-character entity map that the `escapeHtml` chain implements. -/
def entityOf (c : Char) : List Char :=
  if c = '&' then ("&amp;").data
  else if c = '<' then ("&lt;").data
  else if c = '>' then ("&gt;").data
  else if c = Char.ofNat 34 then ("&quot;").data
  else if c = Char.ofNat 39 then ("&#039;").data
  else [c]

/-- A character the spec treats as HTML-dangerous in attribute or text
position: <, >, double quote, single quote. -/
abbrev forbiddenChar (c : Char) : Prop :=
  c = '<' ∨ c = '>' ∨ c = Char.ofNat 34 ∨ c = Char.ofNat 39

/-- One lead record as consumed by `renderTable`; absent fields are `none`. -/
structure Lead where
  data_inscricao : Option String
  nome : Option String
  cpf : Option String
  celular : Option String
  email : Option String
  origem : Option String
  polo : Option String
  curso : Option String
  status : Option String
  consultor : Option String

/-- The ten table cells of one row of `renderTable` (app.js lines 136-163), in
column order.  The date column first goes through `fmtDate`; `fmtDate` of the
legacy variant calls `Date.parse`, so the formatter is taken as a parameter
`fmt` and the theorems hold for every formatter. -/
def rowCells (fmt : Option String → String) (r : Lead) : List String :=
  [escapeHtml (some (fmt r.data_inscricao)), escapeHtml r.nome, escapeHtml r.cpf,
   escapeHtml r.celular, escapeHtml r.email, escapeHtml r.origem,
   escapeHtml r.polo, escapeHtml r.curso, escapeHtml r.status,
   escapeHtml r.consultor]

/-! ## fillDatalist (app.js lines 181-196, legacy variant: the one with the
50000 cap and the Array.isArray guard) -/

/-- The argument of `fillDatalist`: either a JS array of strings or any
non-array value. -/
inductive JsValue where
  | arr (l : List String)
  | nonArray
deriving DecidableEq

/-- `fillDatalist` (app.js lines 181-196) returns the option values it renders:
`values.slice(0, 50000)` when the argument is an array, nothing otherwise. -/
def fillDatalist (values : JsValue) : List String :=
  match values with
  | .arr l => l.take 50000
  | .nonArray => []

/-! ## limit parsing (readFiltersFromUI, app.js lines 201-213 legacy variant
and lines 868-876 chips variant) -/

/-- Model of `parseInt(s, 10)`: skip leading whitespace, optional sign, then a
run of decimal digits; `none` models `NaN`. -/
def jsParseInt (s : String) : Option Int :=
  let t := s.data.dropWhile isWsp
  let signed : Int × List Char :=
    match t with
    | c :: cs => if c = '-' then (-1, cs) else if c = '+' then (1, cs) else (1, t)
    | [] => (1, [])
  let digits := signed.2.takeWhile Char.isDigit
  if digits.isEmpty then none
  else some (signed.1 * digits.foldl (fun a c => a * 10 + ((c.toNat : Int) - 48)) 0)

/-- `$("#fLimit")?.value || "500"`: an absent element (`none`) or an empty
field falls back to the literal "500". -/
def limitInput (raw : Option String) : String :=
  match raw with
  | none => "500"
  | some s => if s = "" then "500" else s

/-- The limit computed by `readFiltersFromUI` of the legacy variant (app.js
lines 201-213): parse, then clamp through `Math.max(50, Math.min(lim, 5000))`,
with 500 when the parse is `NaN`. -/
def readFiltersLimitLegacy (raw : Option String) : Int :=
  match jsParseInt (limitInput raw) with
  | some n => max 50 (min n 5000)
  | none => 500

/-- The limit computed by `readFiltersFromUI` of the chips variant (app.js
lines 868-876): parse with default 500, and no clamping at all. -/
def readFiltersLimitChips (raw : Option String) : Int :=
  match jsParseInt (limitInput raw) with
  | some n => n
  | none => 500

/-! ## the two wire-format compilers inside apiGet -/

/-- One value of the params object handed to `apiGet`. -/
inductive ParamVal where
  | str (s : String)
  | arr (l : List String)
  | num (n : Int)
deriving DecidableEq

/-- The scalar branch of the chips-variant `apiGet`: `String(v).trim()`,
skipped when empty, else one key=value pair. -/
def scalarPair (k s : String) : List (String × String) :=
  let t := jsTrimS s
  if t = "" then [] else [(k, t)]

/-- The array branch of the chips-variant `apiGet`: one appended pair per
selected value, trimmed, empties skipped (repeated-key encoding). -/
def arrSeg (k : String) (l : List String) : List (String × String) :=
  l.filterMap (fun item =>
    let s := jsTrimS item
    if s = "" then none else some (k, s))

/-- The query-parameter compiler of the chips-variant `apiGet` (app.js lines
539-560, identical in unnamed/part_001 lines 73-96): arrays become repeated
key=value pairs, scalars one trimmed pair, numbers via `String(v)`. -/
def compileParams (ps : List (String × ParamVal)) : List (String × String) :=
  ps.flatMap (fun kv =>
    match kv.2 with
    | .arr l => arrSeg kv.1 l
    | .str s => scalarPair kv.1 s
    | .num n => scalarPair kv.1 (toString n))

/-- The query-parameter compiler of the TomSelect-variant `apiGet` (app.js
lines 1159-1171, same in unnamed/part_000): `""` values are skipped, arrays
are joined into one value with the separator " || ", everything through
`searchParams.set` (a single instance of the key). -/
def compileParamsTom (ps : List (String × ParamVal)) : List (String × String) :=
  ps.filterMap (fun kv =>
    match kv.2 with
    | .str s => if s = "" then none else some (kv.1, s)
    | .arr l => some (kv.1, String.intercalate (" || ") l)
    | .num n => some (kv.1, toString n))

/-- The filter snapshot of the chips variant (state.filters, app.js lines
517-534). -/
structure FiltersChips where
  status : String
  origem : String
  data_ini : String
  data_fim : String
  limit : Int
  curso_list : List String
  polo_list : List String

/-- The params object built by `loadLeadsAndKpis` of the chips variant (app.js
lines 908-918) for both the records and the KPI request. -/
def leadsParams (f : FiltersChips) : List (String × ParamVal) :=
  [(("status"), .str f.status), (("origem"), .str f.origem),
   (("data_ini"), .str f.data_ini), (("data_fim"), .str f.data_fim),
   (("limit"), .num f.limit),
   (("curso"), .arr f.curso_list), (("polo"), .arr f.polo_list)]

/-- The filter snapshot of the TomSelect variant (`getFilters`, app.js lines
1193-1203); the limit field is kept opaque. -/
structure FiltersTom where
  status : String
  curso : List String
  polo : List String
  origem : String
  data_ini : String
  data_fim : String
  limit : ParamVal

/-- The params object built by `getFilters` of the TomSelect variant (app.js
lines 1193-1203), in source key order. -/
def getFiltersParams (g : FiltersTom) : List (String × ParamVal) :=
  [(("status"), .str g.status), (("curso"), .arr g.curso),
   (("polo"), .arr g.polo), (("origem"), .str g.origem),
   (("data_ini"), .str g.data_ini), (("data_fim"), .str g.data_fim),
   (("limit"), g.limit)]

/-! ## Selection Store (chips variant: _uniqPush, _removeValue, app.js lines
627-637 = unnamed/part_001 lines 167-177; modal apply in unnamed/part_001
lines 287-298) -/

/-- The comparison key of the spec's uniqueness invariant: case-insensitive
(via the source's `toUpperCase`) on the trimmed value. -/
def selKey (s : String) : String := jsUpperS (jsTrimS s)

/-- `_uniqPush` (app.js lines 627-631): trim the value, ignore it when empty,
push it unless some existing entry matches under `toUpperCase` (the existing
entry is compared untrimmed). -/
def uniqPush (arr : List String) (value : String) : List String :=
  let v := jsTrimS value
  if v = "" then arr
  else if arr.any (fun x => jsUpperS x == jsUpperS v) then arr
  else arr ++ [v]

/-- `_removeValue` (app.js lines 633-637): erase the first entry whose trimmed
uppercase form matches the trimmed uppercase value. -/
def removeValue (arr : List String) (value : String) : List String :=
  arr.eraseP (fun x => selKey x == selKey value)

/-- The membership test of `ddMakeRow` (app.js line 708) and of the modal
checkboxes (unnamed/part_001 line 275): trimmed, case-insensitive. -/
def isOn (sel : List String) (v : String) : Bool :=
  sel.any (fun x => selKey x == selKey v)

/-- The values collected by `applyModalSelection` (unnamed/part_001 lines
287-298): the checked subset of the modal's candidate rows, in row order,
taken verbatim with no dedup and no trim. -/
def chosenOf (cands : List String) (checks : List Bool) : List String :=
  (cands.zip checks).filterMap (fun cb => if cb.2 then some cb.1 else none)

/-- One selection mutation of a multi-valued dimension, covering every mutation
site of the sources: Enter add (`addFromInput` / the Enter branch of
`bindDropdown`), dropdown row toggle (`ddMakeRow`), chip removal
(`renderChips`), modal apply (`applyModalSelection`) and clearing
(`clearModalSelection` / the clear button). -/
inductive SelOp where
  | add (v : String)
  | rowToggle (v : String)
  | chipRemove (v : String)
  | modalApply (cands : List String) (checks : List Bool)
  | clearAll
deriving DecidableEq

/-- Applies one selection mutation, per the corresponding source handler. -/
def applySelOp (sel : List String) (op : SelOp) : List String :=
  match op with
  | .add v => uniqPush sel v
  | .rowToggle v => if isOn sel v then removeValue sel v else uniqPush sel v
  | .chipRemove v => removeValue sel v
  | .modalApply cands checks => chosenOf cands checks
  | .clearAll => []

/-- Runs a sequence of selection mutations from a start state. -/
def applySelOps (sel : List String) (ops : List SelOp) : List String :=
  ops.foldl applySelOp sel

/-- The spec's uniqueness invariant: no two entries agree under
case-insensitive trimmed comparison. -/
abbrev SelUnique (l : List String) : Prop :=
  l.Pairwise (fun a b => selKey a ≠ selKey b)

/-- The maintained store invariant: every entry is trimmed, and entries are
pairwise distinct under the comparison key. -/
abbrev SelInv (l : List String) : Prop :=
  (∀ x ∈ l, jsTrimS x = x) ∧ SelUnique l

/-- Side condition on a mutation: a modal apply must draw from a candidate
list whose entries are trimmed and pairwise key-distinct; every other
mutation is unconditional. -/
abbrev ModalOk : SelOp → Prop
  | .modalApply cands _ => (∀ x ∈ cands, jsTrimS x = x) ∧ SelUnique cands
  | _ => True

/-! ## Candidate filter and incremental dropdown renderer (chips variant:
ddFilterList app.js lines 730-742, ddRenderNext 747-788, ddRebuild 790-802,
ddMakeRow 706-728) -/

/-- `ddFilterList` (app.js lines 730-742): empty query returns a copy of the
full list; otherwise keep the non-empty candidates whose `toUpperCase` form
contains the (already uppercased) query as a substring. -/
def ddFilterList (all : List String) (qUpper : String) : List String :=
  if qUpper = "" then all
  else all.filter (fun v => !(v == "") && hasSub qUpper.data (jsUpperS v).data)

/-- The dropdown batch size `DD_BATCH` (app.js line 745). -/
def DD_BATCH : Nat := 350

/-- The dropdown runtime state of one dimension (state.dd plus the rendered
rows): search text (already uppercased), render cursor `idx`, the filtered
sequence, and the materialized rows, each carrying the membership marker
computed by `ddMakeRow` when the row was built. -/
structure DDSt where
  q : String
  idx : Nat
  filtered : List String
  rows : List (String × Bool)
deriving DecidableEq

/-- `ddRenderNext` (app.js lines 747-788): an empty filtered sequence renders
the placeholder (no rows) and resets the cursor; otherwise a cursor at zero
first clears the surface, then the next `DD_BATCH` items are appended as rows
with their current membership marker and the cursor advances (clamped). -/
def ddRenderNext (sel : List String) (st : DDSt) : DDSt :=
  if st.filtered.isEmpty then { st with rows := [], idx := 0 }
  else
    let base := if st.idx = 0 then [] else st.rows
    let stop := min (st.idx + DD_BATCH) st.filtered.length
    let fresh := ((st.filtered.drop st.idx).take (stop - st.idx)).map
      (fun v => (v, isOn sel v))
    { st with rows := base ++ fresh, idx := stop }

/-- `ddRebuild` (app.js lines 790-802): recompute the query from the live
input (trim + toUpperCase), refilter the full candidate list, reset the
cursor to zero and render the first batch. -/
def ddRebuild (options : List String) (sel : List String) (inputVal : String)
    (st : DDSt) : DDSt :=
  let q := jsUpperS (jsTrimS inputVal)
  ddRenderNext sel { st with q := q, filtered := ddFilterList options q, idx := 0 }

/-- The mousedown handler of `ddMakeRow` (app.js lines 717-725): toggle the
value's membership, then `renderChips` (not modelled here) and `ddRebuild`;
the debounced fetch trigger follows and is part of the orchestrator model. -/
def rowActivate (options : List String) (inputVal : String) (sel : List String)
    (st : DDSt) (v : String) : List String × DDSt :=
  let sel2 := if isOn sel v then removeValue sel v else uniqPush sel v
  (sel2, ddRebuild options sel2 inputVal st)

/-! ## Spec-side candidate filter (refinement comparator for the claim that
the filter normalizes by case-folding AND diacritic-stripping; the source
`ddFilterList` only case-folds) -/

/-- Diacritic stripping on one already-uppercased character, per the NFD
combining-mark removal the spec describes. -/
def stripDiacritic (c : Char) : Char :=
  match c with
  | 'À' | 'Á' | 'Â' | 'Ã' | 'Ä' | 'Å' => 'A'
  | 'Ç' => 'C'
  | 'È' | 'É' | 'Ê' | 'Ë' => 'E'
  | 'Ì' | 'Í' | 'Î' | 'Ï' => 'I'
  | 'Ñ' => 'N'
  | 'Ò' | 'Ó' | 'Ô' | 'Õ' | 'Ö' => 'O'
  | 'Ù' | 'Ú' | 'Û' | 'Ü' => 'U'
  | 'Ý' => 'Y'
  | _ => c

/-- The spec's normal form for the candidate filter, following its words:
case-folded (trim plus uppercase, matching the code's fold) and then
diacritic-stripped. -/
def specNormalize (s : String) : String :=
  String.mk ((jsUpperS (jsTrimS s)).data.map stripDiacritic)

/-- The candidate filter as the spec words it: the ordered subsequence of
candidates whose normalized form contains the normalized query as a
substring. -/
def ddFilterListSpec (all : List String) (query : String) : List String :=
  all.filter (fun v => hasSub (specNormalize query).data (specNormalize v).data)

/-! ## Fetch cycle machine (loadLeadsAndKpis of the chips variant, app.js
lines 902-939 = unnamed/part_001 lines 345-381, driven by the debounced
trigger).  Each debounce firing starts one cycle: `readFiltersFromUI`, the
status line set to "Carregando...", and the two requests of `Promise.all`
issued.  A cycle settles when its second successful response arrives (both
rendered together) or when its first failed response arrives (the catch
block).  The code carries no epoch tag: every settling cycle is applied, in
arrival order.  Cycles are numbered here by firing order only so the trace
can refer to them; the number exists in the model, not in the code. -/

/-- Outcome of one network request. -/
inductive FetchRes (α : Type) where
  | ok (val : α)
  | err (msg : String)
deriving DecidableEq

/-- The rows payload of the records response. -/
abbrev Rows := List String

/-- One scheduler event: a debounce firing with the captured filter params, or
the arrival of the records / KPI response of cycle `e`. -/
inductive FEv where
  | fire (p : String)
  | respLeads (e : Nat) (r : FetchRes Rows)
  | respKpis (e : Nat) (r : FetchRes String)
deriving DecidableEq

/-- Progress of one `Promise.all` pair: waiting for both, holding one arrived
response, or settled (applied or failed; later responses are ignored). -/
inductive PendCycle where
  | waiting
  | gotLeads (rows : Rows)
  | gotKpis (k : String)
  | closed
deriving DecidableEq

/-- What `renderTable` left in the table: untouched since load, the
"Nenhum lead encontrado" placeholder, or a list of rows. -/
inductive TableView where
  | initial
  | noLeads
  | shown (rows : Rows)
deriving DecidableEq

/-- What `renderKpis` left in the KPI labels. -/
inductive KpiView where
  | initial
  | shown (k : String)
deriving DecidableEq

/-- One application of a settled pair to the view, as recorded for the
theorems: the cycle number, its captured params, and the two payloads
rendered together. -/
structure AppliedEntry where
  epoch : Nat
  params : String
  rows : Rows
  kpis : String
deriving DecidableEq

/-- The client state the fetch path touches: the number of cycles fired, the
per-cycle pair progress (with the captured params), the rendered table and
KPI views, the status line, and the log of applied pairs in order. -/
structure OrchSt where
  count : Nat
  pend : Nat → Option (String × PendCycle)
  table : TableView
  kview : KpiView
  statusLine : String
  applied : List AppliedEntry

/-- `renderTable` (app.js lines 572-595): an empty or missing rows list
renders the placeholder row, otherwise the rows. -/
def renderTable (rows : Rows) : TableView :=
  if rows.isEmpty then .noLeads else .shown rows

/-- Overwrites the progress slot of cycle `e`. -/
def setCycle (s : OrchSt) (e : Nat) (p : String) (c : PendCycle) : OrchSt :=
  { s with pend := fun n => if n = e then some (p, c) else s.pend n }

/-- The success continuation of `Promise.all` (app.js lines 921-931): render
the table and the KPIs from the pair, set the count message, close the
cycle, and record the application. -/
def applyPair (s : OrchSt) (e : Nat) (p : String) (rows : Rows) (k : String) : OrchSt :=
  { setCycle s e p .closed with
      table := renderTable rows,
      kview := KpiView.shown k,
      statusLine := toString rows.length ++ " registros carregados.",
      applied := s.applied ++ [⟨e, p, rows, k⟩] }

/-- The catch block (app.js lines 932-936 = unnamed/part_001 lines 376-380):
`renderTable([])` — the placeholder, clearing whatever was shown — and the
fixed failure toast; the KPI labels are not touched in this variant (the
legacy variant at app.js lines 269-274 additionally zeroes them). -/
def failCycle (s : OrchSt) (e : Nat) (p : String) : OrchSt :=
  { setCycle s e p .closed with
      table := renderTable [],
      statusLine := "Falha ao carregar dados do BigQuery." }

/-- The debounce-firing step: open cycle `count` with the captured params and
set the status line to "Carregando...". -/
def fireStep (s : OrchSt) (p : String) : OrchSt :=
  { s with count := s.count + 1,
           pend := fun n => if n = s.count then some (p, .waiting) else s.pend n,
           statusLine := "Carregando..." }

/-- Arrival of the records response of cycle `e`: held when the KPI response
is still out, applied as a pair when the KPI response already arrived, catch
block on failure; ignored for an unknown or settled cycle. -/
def leadsStep (s : OrchSt) (e : Nat) (r : FetchRes Rows) : OrchSt :=
  match s.pend e, r with
  | some (p, .waiting), .ok rows => setCycle s e p (.gotLeads rows)
  | some (p, .gotKpis k), .ok rows => applyPair s e p rows k
  | some (p, .waiting), .err _ => failCycle s e p
  | some (p, .gotKpis _), .err _ => failCycle s e p
  | _, _ => s

/-- Arrival of the KPI response of cycle `e`, symmetric to `leadsStep`. -/
def kpisStep (s : OrchSt) (e : Nat) (r : FetchRes String) : OrchSt :=
  match s.pend e, r with
  | some (p, .waiting), .ok k => setCycle s e p (.gotKpis k)
  | some (p, .gotLeads rows), .ok k => applyPair s e p rows k
  | some (p, .waiting), .err _ => failCycle s e p
  | some (p, .gotLeads _), .err _ => failCycle s e p
  | _, _ => s

/-- One event step of the fetch path.  A firing opens a cycle; a response for
an unknown or already-closed cycle is ignored (`Promise.all` settles once);
the first successful response is held; the second successful response applies
the pair; any failed response of an open cycle runs the catch block. -/
def stepOrch (s : OrchSt) (ev : FEv) : OrchSt :=
  match ev with
  | .fire p => fireStep s p
  | .respLeads e r => leadsStep s e r
  | .respKpis e r => kpisStep s e r

/-- The page state before any fetch. -/
def initOrch : OrchSt :=
  { count := 0, pend := fun _ => none, table := .initial, kview := .initial,
    statusLine := "", applied := [] }

/-- Runs a whole event trace from the initial state. -/
def runOrch (tr : List FEv) : OrchSt := tr.foldl stepOrch initOrch

/-- Soundness relation between a processed trace and a state: every held
response and every applied pair is a response that actually arrived, for that
same cycle, in the trace. -/
def PendSound (tr : List FEv) (s : OrchSt) : Prop :=
  (∀ e p rows, s.pend e = some (p, .gotLeads rows) → FEv.respLeads e (.ok rows) ∈ tr) ∧
  (∀ e p k, s.pend e = some (p, .gotKpis k) → FEv.respKpis e (.ok k) ∈ tr) ∧
  (∀ a ∈ s.applied,
    FEv.respLeads a.epoch (.ok a.rows) ∈ tr ∧ FEv.respKpis a.epoch (.ok a.kpis) ∈ tr)

/-! ## The claims as stated, as predicates over the embedded code -/

/-- Claim C1 as stated: over any trace, results of at most one cycle are
applied to the view, and any applied cycle is the highest one whose pair of
successful responses both arrived in the trace. -/
def claimEpochMonotone : Prop :=
  ∀ tr : List FEv,
    (runOrch tr).applied.length ≤ 1 ∧
    ∀ a ∈ (runOrch tr).applied, ∀ e : Nat,
      ((∃ rows, FEv.respLeads e (.ok rows) ∈ tr) ∧ (∃ k, FEv.respKpis e (.ok k) ∈ tr)) →
      e ≤ a.epoch

/-- Claim C2 as stated: when a cycle whose params equal the params of the last
successfully applied pair fails, the rendered table is preserved rather than
cleared. -/
def claimFailurePreserves : Prop :=
  ∀ (pre : List FEv) (e : Nat) (m p : String) (c : PendCycle),
    (runOrch pre).pend e = some (p, c) → c ≠ .closed →
    ∀ a : AppliedEntry, (runOrch pre).applied.getLast? = some a → a.params = p →
    (runOrch (pre ++ [.respKpis e (.err m)])).table = (runOrch pre).table

/-- Claim C3 as stated: every sequence of selection mutations, starting from
the empty selection, leaves the selection unique under case-insensitive
trimmed comparison. -/
def claimSelectionUnique : Prop :=
  ∀ ops : List SelOp, SelUnique (applySelOps [] ops)

/-- Claim C4 as stated: on every candidate list and non-empty query, the code
filter (fed the trimmed uppercased query, as `ddRebuild` computes it) returns
exactly the subsequence selected by the spec's case-folded,
diacritic-stripped normal form. -/
def claimDiacriticFilter : Prop :=
  ∀ (all : List String) (query : String), jsTrimS query ≠ "" →
    ddFilterList all (jsUpperS (jsTrimS query)) = ddFilterListSpec all query

/-- Claim C6 as stated: both apiGet compilers in the cited lines encode a
non-empty multi-valued selection as repeated key=value pairs, one per
selected value. -/
def claimRepeatedKey : Prop :=
  ∀ (k : String) (sel : List String),
    (∀ s ∈ sel, jsTrimS s = s ∧ s ≠ "") → sel ≠ [] →
    compileParams [(k, .arr sel)] = sel.map (fun s => (k, s)) ∧
    compileParamsTom [(k, .arr sel)] = sel.map (fun s => (k, s))

/-- Claim C7 as stated: activating a rendered row leaves the render cursor
unchanged and only flips the activated value's membership marker in the
already-rendered rows. -/
def claimRowLocal : Prop :=
  ∀ (options : List String) (inputVal : String) (sel : List String)
    (st : DDSt) (v : String),
    (rowActivate options inputVal sel st v).2.idx = st.idx ∧
    (rowActivate options inputVal sel st v).2.rows =
      st.rows.map (fun rw => if selKey rw.1 = selKey v then (rw.1, !rw.2) else rw)

/-- Claim C8 as stated: both cited readFiltersFromUI variants transmit a limit
clamped to 50-5000, defaulting to 500 when absent or unparseable. -/
def claimLimitClamped : Prop :=
  ∀ raw : Option String,
    (50 ≤ readFiltersLimitLegacy raw ∧ readFiltersLimitLegacy raw ≤ 5000) ∧
    (50 ≤ readFiltersLimitChips raw ∧ readFiltersLimitChips raw ≤ 5000)

/-! ## Concrete inputs for the counterexamples -/

/-- Two overlapping cycles whose response pairs complete out of epoch order:
cycle 1 settles first, then cycle 0. -/
def traceTwoCycles : List FEv :=
  [.fire ("p"), .fire ("p"),
   .respLeads 1 (.ok ["b"]), .respKpis 1 (.ok ("k2")),
   .respLeads 0 (.ok ["a"]), .respKpis 0 (.ok ("k1"))]

/-- A successful cycle followed by a second cycle with the same params whose
KPI request fails after its records request succeeded. -/
def traceFailAfterSuccess : List FEv :=
  [.fire ("p"), .respLeads 0 (.ok ["a"]), .respKpis 0 (.ok ("k1")),
   .fire ("p"), .respLeads 1 (.ok ["b"])]

/-- 351 candidates: enough for two render batches (350 + 1). -/
def manyOptions : List String := List.replicate 350 ("A") ++ [("B")]

/-- The dropdown state after opening with an empty query and scrolling once:
both batches rendered, cursor at 351. -/
def ddTwoBatches : DDSt :=
  ddRenderNext [] (ddRebuild manyOptions [] ("") ⟨"", 0, [], []⟩)

/-- One fired cycle holding its records response: the state a failing KPI
response then hits. -/
def traceStartCycle : List FEv := [.fire ("p"), .respLeads 0 (.ok ["a"])]

/-! # Theorems

General lemmas about the string primitives first, then one block per claim. -/

theorem dropWhile_of_head_not {p : Char → Bool} {l : List Char}
    (h : ∀ x ∈ l.head?, ¬ p x) : l.dropWhile p = l := by
  cases l with
  | nil => rfl
  | cons c t =>
    have hc : ¬ p c = true := h c rfl
    simp [List.dropWhile, hc]

theorem head_dropWhile_not (p : Char → Bool) (l : List Char) :
    ∀ x ∈ (l.dropWhile p).head?, ¬ p x := by
  induction l with
  | nil => intro x hx; simp at hx
  | cons c t ih =>
    by_cases hc : p c
    · simpa [List.dropWhile, hc] using ih
    · intro x hx
      simp [List.dropWhile, hc] at hx
      subst hx; exact hc

theorem dropTrailingWs_idem (l : List Char) :
    dropTrailingWs (dropTrailingWs l) = dropTrailingWs l := by
  induction l with
  | nil => rfl
  | cons c t ih =>
    by_cases hb : (dropTrailingWs t).isEmpty && isWsp c
    · simp [dropTrailingWs, hb]
    · simp only [dropTrailingWs, hb, if_false]
      simp only [dropTrailingWs, ih, hb, if_false]

theorem head_dropTrailingWs (l : List Char) :
    dropTrailingWs l = [] ∨ (dropTrailingWs l).head? = l.head? := by
  cases l with
  | nil => exact Or.inl rfl
  | cons c t =>
    by_cases hb : (dropTrailingWs t).isEmpty && isWsp c
    · exact Or.inl (by simp [dropTrailingWs, hb])
    · exact Or.inr (by simp [dropTrailingWs, hb])

theorem trimChars_idem (l : List Char) : trimChars (trimChars l) = trimChars l := by
  unfold trimChars
  rcases head_dropTrailingWs (l.dropWhile isWsp) with h | h
  · rw [h]; rfl
  · have hw : (dropTrailingWs (l.dropWhile isWsp)).dropWhile isWsp =
        dropTrailingWs (l.dropWhile isWsp) := by
      apply dropWhile_of_head_not
      intro x hx
      rw [h] at hx
      exact head_dropWhile_not isWsp l x hx
    rw [hw, dropTrailingWs_idem]

theorem data_mk (l : List Char) : (String.mk l).data = l := rfl

theorem jsTrimS_idem (s : String) : jsTrimS (jsTrimS s) = jsTrimS s := by
  unfold jsTrimS
  rw [data_mk, trimChars_idem]

theorem selKey_trim (v : String) : selKey (jsTrimS v) = selKey v := by
  unfold selKey
  rw [jsTrimS_idem]

theorem selKey_of_trimmed {x : String} (h : jsTrimS x = x) : selKey x = jsUpperS x := by
  unfold selKey
  rw [h]

theorem headMatch_iff (ned hay : List Char) :
    headMatch ned hay = true ↔ ∃ r, hay = ned ++ r := by
  induction ned generalizing hay with
  | nil => simp [headMatch]
  | cons a as ih =>
    cases hay with
    | nil => simp [headMatch]
    | cons b bs =>
      simp only [headMatch, Bool.and_eq_true, beq_iff_eq, ih, List.cons_append]
      constructor
      · rintro ⟨rfl, r, rfl⟩
        exact ⟨r, rfl⟩
      · rintro ⟨r, hr⟩
        obtain ⟨rfl, rfl⟩ : a = b ∧ bs = as ++ r := by
          have h1 := congrArg List.head? hr
          have h2 := congrArg List.tail hr
          simp at h1 h2
          exact ⟨h1.symm, h2⟩
        exact ⟨rfl, r, rfl⟩

theorem hasSub_iff (ned hay : List Char) :
    hasSub ned hay = true ↔ ∃ l r, hay = l ++ ned ++ r := by
  induction hay with
  | nil =>
    simp only [hasSub, headMatch_iff]
    constructor
    · rintro ⟨r, hr⟩
      exact ⟨[], r, hr⟩
    · rintro ⟨l, r, hr⟩
      have h0 : l = [] ∧ ned = [] ∧ r = [] := by
        have h1 := hr.symm
        simpa [List.append_eq_nil] using h1
      exact ⟨r, by simp [h0.2.1, h0.2.2]⟩
  | cons c t ih =>
    simp only [hasSub, Bool.or_eq_true, headMatch_iff, ih]
    constructor
    · rintro (⟨r, hr⟩ | ⟨l, r, hr⟩)
      · exact ⟨[], r, by simpa using hr⟩
      · exact ⟨c :: l, r, by simp [hr]⟩
    · rintro ⟨l, r, hr⟩
      cases l with
      | nil => exact Or.inl ⟨r, by simpa using hr⟩
      | cons x xs =>
        have h2 := congrArg List.tail hr
        simp at h2
        exact Or.inr ⟨xs, r, by rw [h2, List.append_assoc]⟩

theorem jsUpperS_ne_empty {s : String} (h : s ≠ "") : jsUpperS s ≠ "" := by
  intro he
  apply h
  have hd : s.data.map jsUpperChar = [] := congrArg String.data he
  have hsd : s.data = [] := List.map_eq_nil_iff.mp hd
  cases s with
  | mk d =>
    simp only at hsd
    rw [hsd]

/-- Claim C5: filtering with the empty query is the identity on the candidate
list (original order preserved), and the filter is idempotent for every
query. -/
theorem c5_filter_empty_and_idempotent :
    (∀ all : List String, ddFilterList all ("") = all) ∧
    (∀ (all : List String) (q : String),
      ddFilterList (ddFilterList all q) q = ddFilterList all q) := by
  constructor
  · intro all
    simp [ddFilterList]
  · intro all q
    by_cases hq : q = ""
    · subst hq; simp [ddFilterList]
    · simp only [ddFilterList, hq, if_false]
      rw [List.filter_filter]
      exact List.filter_congr (fun a _ => by
        cases h : (!(a == "") && hasSub q.data (jsUpperS a).data) <;> simp [h])

/-- Claim C4, counterexample: the code filter is not diacritic-stripped.  On
the candidate list ["Educação"] with query "educacao", the code returns the
empty list while the spec's normalized filter returns ["Educação"]. -/
theorem c4_diacritic_counterexample : ¬ claimDiacriticFilter := by
  intro h
  have h2 := h ["Educação"] ("educacao") (by decide)
  exact absurd h2 (by decide)

/-- Claim C4 as amended: for a query whose trim is non-empty, `ddFilterList`
(fed the trimmed uppercased query exactly as `ddRebuild` computes it) returns
the ordered subsequence of the non-empty candidates whose `toUpperCase` form
contains the uppercased query as a contiguous substring — case-folded only,
not diacritic-stripped; the spec's own example still holds: query "edi"
selects ["Medicine"]. -/
theorem c4_filter_characterization (all : List String) (query : String)
    (h : jsTrimS query ≠ "") :
    List.Sublist (ddFilterList all (jsUpperS (jsTrimS query))) all ∧
    (∀ v, v ∈ ddFilterList all (jsUpperS (jsTrimS query)) ↔
      v ∈ all ∧ v ≠ "" ∧
      ∃ l r, (jsUpperS v).data = l ++ (jsUpperS (jsTrimS query)).data ++ r) ∧
    ddFilterList ["Engineering", "Medicine", "Law"] (jsUpperS (jsTrimS ("edi"))) =
      ["Medicine"] := by
  have hq : jsUpperS (jsTrimS query) ≠ "" := jsUpperS_ne_empty h
  refine ⟨?_, ?_, by decide⟩
  · simp only [ddFilterList, hq, if_false]
    exact List.filter_sublist all
  · intro v
    simp only [ddFilterList, hq, if_false, List.mem_filter, Bool.and_eq_true,
      Bool.not_eq_true', beq_eq_false_iff_ne, ne_eq, hasSub_iff]

/-- Claim C4, witness for the amended theorem at the spec's example input. -/
theorem c4_filter_characterization_witness :
    (jsTrimS ("edi") ≠ "") ∧
    (List.Sublist (ddFilterList ["Engineering", "Medicine", "Law"]
        (jsUpperS (jsTrimS ("edi")))) ["Engineering", "Medicine", "Law"] ∧
     (∀ v, v ∈ ddFilterList ["Engineering", "Medicine", "Law"]
          (jsUpperS (jsTrimS ("edi"))) ↔
        v ∈ ["Engineering", "Medicine", "Law"] ∧ v ≠ "" ∧
        ∃ l r, (jsUpperS v).data = l ++ (jsUpperS (jsTrimS ("edi"))).data ++ r) ∧
     ddFilterList ["Engineering", "Medicine", "Law"] (jsUpperS (jsTrimS ("edi"))) =
       ["Medicine"]) :=
  ⟨by decide, c4_filter_characterization ["Engineering", "Medicine", "Law"] ("edi")
    (by decide)⟩

theorem selInv_nil : SelInv [] := ⟨fun x hx => absurd hx (List.not_mem_nil x), List.Pairwise.nil⟩

theorem sublist_selInv {l₁ l₂ : List String} (h : List.Sublist l₁ l₂)
    (hi : SelInv l₂) : SelInv l₁ :=
  ⟨fun x hx => hi.1 x (h.subset hx), hi.2.sublist h⟩

theorem uniqPush_selInv (l : List String) (v : String) (h : SelInv l) :
    SelInv (uniqPush l v) := by
  unfold uniqPush
  by_cases hv : jsTrimS v = ""
  · simpa [hv] using h
  · simp only [hv, if_false]
    by_cases hg : l.any (fun x => jsUpperS x == jsUpperS (jsTrimS v))
    · simpa [hg] using h
    · rw [if_neg hg]
      have hnot : ∀ x ∈ l, jsUpperS x ≠ jsUpperS (jsTrimS v) := by
        intro x hx hEq
        apply hg
        simp only [List.any_eq_true]
        exact ⟨x, hx, by simpa using hEq⟩
      refine ⟨?_, ?_⟩
      · intro x hx
        rcases List.mem_append.mp hx with hx1 | hx2
        · exact h.1 x hx1
        · have hx3 : x = jsTrimS v := by simpa using hx2
          rw [hx3]
          exact jsTrimS_idem v
      · refine List.pairwise_append.mpr ⟨h.2, List.pairwise_singleton _ _, ?_⟩
        intro a ha b hb
        have hb2 : b = jsTrimS v := by simpa using hb
        subst hb2
        rw [selKey_of_trimmed (h.1 a ha), selKey_trim]
        intro hEq
        exact hnot a ha hEq

theorem removeValue_selInv (l : List String) (v : String) (h : SelInv l) :
    SelInv (removeValue l v) :=
  sublist_selInv (List.eraseP_sublist l) h

theorem chosenOf_sublist (cands : List String) (checks : List Bool) :
    List.Sublist (chosenOf cands checks) cands := by
  induction cands generalizing checks with
  | nil => simp [chosenOf]
  | cons c t ih =>
    cases checks with
    | nil => simp [chosenOf]
    | cons b bs =>
      cases b with
      | true =>
        simpa [chosenOf, List.filterMap_cons] using List.Sublist.cons₂ c (ih bs)
      | false =>
        simpa [chosenOf, List.filterMap_cons] using List.Sublist.cons c (ih bs)

theorem applySelOp_selInv (sel : List String) (op : SelOp) (h : SelInv sel)
    (hop : ModalOk op) : SelInv (applySelOp sel op) := by
  cases op with
  | add v => exact uniqPush_selInv sel v h
  | rowToggle v =>
    simp only [applySelOp]
    by_cases ht : isOn sel v
    · simpa [ht] using removeValue_selInv sel v h
    · simpa [ht] using uniqPush_selInv sel v h
  | chipRemove v => exact removeValue_selInv sel v h
  | modalApply cands checks =>
    exact sublist_selInv (chosenOf_sublist cands checks) ⟨hop.1, hop.2⟩
  | clearAll => exact selInv_nil

theorem applySelOps_selInv (ops : List SelOp) :
    ∀ sel : List String, SelInv sel → (∀ op ∈ ops, ModalOk op) →
      SelInv (applySelOps sel ops) := by
  induction ops with
  | nil => intro sel h _; simpa [applySelOps] using h
  | cons op t ih =>
    intro sel h hops
    have h1 : SelInv (applySelOp sel op) :=
      applySelOp_selInv sel op h (hops op (List.mem_cons_self op t))
    have h2 : ∀ o ∈ t, ModalOk o := fun o ho => hops o (List.mem_cons_of_mem op ho)
    simpa [applySelOps] using ih (applySelOp sel op) h1 h2

/-- Claim C3, counterexample: a modal apply replaces the selection with the
checked candidate rows verbatim, so checking two candidates that differ only
in case — here "Law" and "LAW" — yields a selection with two entries equal
under case-insensitive trimmed comparison. -/
theorem c3_unique_counterexample : ¬ claimSelectionUnique := by
  intro h
  have h2 := h [.modalApply ["Law", "LAW"] [true, true]]
  exact absurd h2 (by decide)

/-- Claim C3 as amended: every sequence of Enter adds, dropdown row toggles,
chip removals, modal applies and clears keeps the selection free of two
entries equal under case-insensitive trimmed comparison, provided each modal
apply draws from a candidate list whose entries are themselves trimmed and
pairwise distinct under that comparison (the add/toggle/remove/clear
operations need no proviso). -/
theorem c3_selection_unique (ops : List SelOp)
    (h : ∀ op ∈ ops, ModalOk op) : SelUnique (applySelOps [] ops) :=
  (applySelOps_selInv ops [] selInv_nil h).2

/-- Claim C3, witness: a concrete mixed mutation sequence satisfying the
modal proviso. -/
theorem c3_selection_unique_witness :
    (∀ op ∈ ([.add ("Law"), .modalApply ["Medicine", "Law"] [true, true],
        .chipRemove ("Law"), .rowToggle ("medicine ")] : List SelOp), ModalOk op) ∧
    SelUnique (applySelOps [] [.add ("Law"),
      .modalApply ["Medicine", "Law"] [true, true],
      .chipRemove ("Law"), .rowToggle ("medicine ")]) := by
  have hops : ∀ op ∈ ([.add ("Law"), .modalApply ["Medicine", "Law"] [true, true],
      .chipRemove ("Law"), .rowToggle ("medicine ")] : List SelOp), ModalOk op := by
    intro op hop
    simp only [List.mem_cons, List.not_mem_nil, or_false] at hop
    rcases hop with rfl | rfl | rfl | rfl
    · exact trivial
    · exact ⟨by decide, by decide⟩
    · exact trivial
    · exact trivial
  exact ⟨hops, c3_selection_unique _ hops⟩

theorem arrSeg_eq_map (k : String) (l : List String) :
    arrSeg k l =
      ((l.map jsTrimS).filter (fun s => !(s == ""))).map (fun s => (k, s)) := by
  induction l with
  | nil => rfl
  | cons a t ih =>
    by_cases ha : jsTrimS a = ""
    · simp [arrSeg, List.filterMap_cons, ha, ← ih, arrSeg]
    · simp [arrSeg, List.filterMap_cons, ha, ← ih, arrSeg]

theorem filter_scalarPair_ne (k q s : String) (h : (k == q) = false) :
    (scalarPair k s).filter (fun pr => pr.1 == q) = [] := by
  unfold scalarPair
  by_cases ht : jsTrimS s = "" <;> simp [ht, h]

theorem filter_arrSeg_ne (k q : String) (l : List String) (h : (k == q) = false) :
    (arrSeg k l).filter (fun pr => pr.1 == q) = [] := by
  rw [arrSeg_eq_map]
  induction ((l.map jsTrimS).filter (fun s => !(s == ""))) with
  | nil => rfl
  | cons a t ih => simpa [h] using ih

theorem filter_arrSeg_self (k : String) (l : List String) :
    (arrSeg k l).filter (fun pr => pr.1 == k) = arrSeg k l := by
  rw [arrSeg_eq_map]
  induction ((l.map jsTrimS).filter (fun s => !(s == ""))) with
  | nil => rfl
  | cons a t ih => simp [ih]

theorem compileParamsTom_cons_str_nil (k1 : String) (t : List (String × ParamVal)) :
    compileParamsTom ((k1, .str ("")) :: t) = compileParamsTom t := by
  simp [compileParamsTom, List.filterMap_cons]

theorem compileParamsTom_cons_str (k1 s : String) (t : List (String × ParamVal))
    (hs : s ≠ "") :
    compileParamsTom ((k1, .str s) :: t) = (k1, s) :: compileParamsTom t := by
  simp [compileParamsTom, List.filterMap_cons, hs]

theorem compileParamsTom_cons_arr (k1 : String) (l : List String)
    (t : List (String × ParamVal)) :
    compileParamsTom ((k1, .arr l) :: t) =
      (k1, String.intercalate (" || ") l) :: compileParamsTom t := by
  simp [compileParamsTom, List.filterMap_cons]

theorem compileParamsTom_cons_num (k1 : String) (n : Int)
    (t : List (String × ParamVal)) :
    compileParamsTom ((k1, .num n) :: t) = (k1, toString n) :: compileParamsTom t := by
  simp [compileParamsTom, List.filterMap_cons]

theorem filterTom_comm (ps : List (String × ParamVal)) (q : String) :
    (compileParamsTom ps).filter (fun pr => pr.1 == q) =
      compileParamsTom (ps.filter (fun kv => kv.1 == q)) := by
  induction ps with
  | nil => rfl
  | cons kv t ih =>
    obtain ⟨k1, val⟩ := kv
    cases val with
    | str s =>
      by_cases hs : s = ""
      · subst hs
        rw [compileParamsTom_cons_str_nil, List.filter_cons]
        by_cases hk : (k1 == q) = true
        · simp only [hk, if_true, compileParamsTom_cons_str_nil, ih]
        · simp [hk, ih]
      · rw [compileParamsTom_cons_str k1 s t hs, List.filter_cons, List.filter_cons]
        by_cases hk : (k1 == q) = true
        · simp [hk, ih, compileParamsTom_cons_str k1 s _ hs]
        · simp [hk, ih]
    | arr l =>
      rw [compileParamsTom_cons_arr, List.filter_cons, List.filter_cons]
      by_cases hk : (k1 == q) = true
      · simp [hk, ih, compileParamsTom_cons_arr]
      · simp [hk, ih]
    | num n =>
      rw [compileParamsTom_cons_num, List.filter_cons, List.filter_cons]
      by_cases hk : (k1 == q) = true
      · simp [hk, ih, compileParamsTom_cons_num]
      · simp [hk, ih]

/-- Claim C6, counterexample: the TomSelect-variant `apiGet` does not use
repeated-key encoding; on the selection ["A", "B"] it transmits the single
parameter ("curso", "A || B") instead of two "curso" instances. -/
theorem c6_encoding_counterexample : ¬ claimRepeatedKey := by
  intro h
  have h2 := (h ("curso") ["A", "B"] (by decide) (by decide)).2
  exact absurd h2 (by decide)

/-- Claim C6 as amended: the chips-variant `apiGet` (app.js lines 539-560,
used by that variant's records and KPI requests) does encode each selected
curso/polo value as a separate instance of the same parameter name (trimmed,
empties dropped); the TomSelect-variant `apiGet` (app.js lines 1159-1171)
instead joins the selected values with the delimiter " || " into a single
instance of the parameter. -/
theorem c6_encoding :
    (∀ f : FiltersChips,
      (compileParams (leadsParams f)).filter (fun pr => pr.1 == "curso") =
        ((f.curso_list.map jsTrimS).filter (fun s => !(s == ""))).map
          (fun s => (("curso"), s)) ∧
      (compileParams (leadsParams f)).filter (fun pr => pr.1 == "polo") =
        ((f.polo_list.map jsTrimS).filter (fun s => !(s == ""))).map
          (fun s => (("polo"), s))) ∧
    (∀ g : FiltersTom,
      (compileParamsTom (getFiltersParams g)).filter (fun pr => pr.1 == "curso") =
        [(("curso"), String.intercalate (" || ") g.curso)] ∧
      (compileParamsTom (getFiltersParams g)).filter (fun pr => pr.1 == "polo") =
        [(("polo"), String.intercalate (" || ") g.polo)]) := by
  constructor
  · intro f
    constructor
    · simp only [compileParams, leadsParams, List.flatMap_cons, List.flatMap_nil,
        List.append_nil, List.filter_append]
      rw [filter_scalarPair_ne ("status") ("curso") _ (by decide),
        filter_scalarPair_ne ("origem") ("curso") _ (by decide),
        filter_scalarPair_ne ("data_ini") ("curso") _ (by decide),
        filter_scalarPair_ne ("data_fim") ("curso") _ (by decide),
        filter_scalarPair_ne ("limit") ("curso") _ (by decide),
        filter_arrSeg_self ("curso") f.curso_list,
        filter_arrSeg_ne ("polo") ("curso") f.polo_list (by decide)]
      simp [arrSeg_eq_map]
    · simp only [compileParams, leadsParams, List.flatMap_cons, List.flatMap_nil,
        List.append_nil, List.filter_append]
      rw [filter_scalarPair_ne ("status") ("polo") _ (by decide),
        filter_scalarPair_ne ("origem") ("polo") _ (by decide),
        filter_scalarPair_ne ("data_ini") ("polo") _ (by decide),
        filter_scalarPair_ne ("data_fim") ("polo") _ (by decide),
        filter_scalarPair_ne ("limit") ("polo") _ (by decide),
        filter_arrSeg_ne ("curso") ("polo") f.curso_list (by decide),
        filter_arrSeg_self ("polo") f.polo_list]
      simp [arrSeg_eq_map]
  · intro g
    constructor
    · rw [filterTom_comm]
      have hf : (getFiltersParams g).filter (fun kv => kv.1 == "curso") =
          [(("curso"), ParamVal.arr g.curso)] := by
        simp [getFiltersParams, List.filter_cons, List.filter_nil]
      rw [hf, compileParamsTom_cons_arr]
      rfl
    · rw [filterTom_comm]
      have hf : (getFiltersParams g).filter (fun kv => kv.1 == "polo") =
          [(("polo"), ParamVal.arr g.polo)] := by
        simp [getFiltersParams, List.filter_cons, List.filter_nil]
      rw [hf, compileParamsTom_cons_arr]
      rfl

theorem take_min_length {α : Type} (l : List α) (n : Nat) :
    l.take (min n l.length) = l.take n := by
  by_cases h : n ≤ l.length
  · rw [min_eq_left h]
  · rw [min_eq_right (le_of_not_le h), List.take_length,
      List.take_of_length_le (le_of_not_le h)]

theorem isOn_removeValue (sel : List String) (v : String)
    (hu : SelUnique sel) (h : isOn sel v = true) :
    isOn (removeValue sel v) v = false := by
  induction sel with
  | nil => simp [isOn] at h
  | cons x t ih =>
    rcases List.pairwise_cons.mp hu with ⟨hx, ht⟩
    by_cases hm : (selKey x == selKey v) = true
    · have hk : selKey x = selKey v := by simpa using hm
      rw [show removeValue (x :: t) v = t from by simp [removeValue, List.eraseP_cons, hm]]
      show (t.any fun y => selKey y == selKey v) = false
      rw [List.any_eq_false]
      intro y hy
      simp only [beq_iff_eq]
      intro hyk
      exact hx y hy (by rw [hk, hyk])
    · have ht2 : isOn t v = true := by
        have h3 : ((selKey x == selKey v) || (t.any fun y => selKey y == selKey v)) = true := h
        rcases Bool.or_eq_true_iff.mp h3 with h4 | h4
        · exact absurd h4 hm
        · exact h4
      have hrec := ih ht ht2
      rw [show removeValue (x :: t) v = x :: removeValue t v from by
        simp [removeValue, List.eraseP_cons, hm]]
      show ((selKey x == selKey v) || ((removeValue t v).any fun y => selKey y == selKey v)) = false
      rw [Bool.or_eq_false_iff]
      exact ⟨by simpa using hm, hrec⟩

theorem isOn_uniqPush (sel : List String) (v : String)
    (hinv : SelInv sel) (hv : jsTrimS v ≠ "") (h : isOn sel v = false) :
    isOn (uniqPush sel v) v = true := by
  have hIsOn : ∀ x ∈ sel, selKey x ≠ selKey v := by
    intro x hx
    have h2 := List.any_eq_false.mp
      (show (sel.any fun y => selKey y == selKey v) = false from h) x hx
    simpa using h2
  have hguard : (sel.any (fun x => jsUpperS x == jsUpperS (jsTrimS v))) = false := by
    rw [List.any_eq_false]
    intro x hx
    simp only [beq_iff_eq]
    intro hEq
    refine hIsOn x hx ?_
    rw [selKey_of_trimmed (hinv.1 x hx), hEq]
    rfl
  have hpush : uniqPush sel v = sel ++ [jsTrimS v] := by
    unfold uniqPush
    rw [if_neg hv, if_neg (by simp [hguard])]
  rw [hpush]
  show ((sel ++ [jsTrimS v]).any fun y => selKey y == selKey v) = true
  rw [List.any_eq_true]
  exact ⟨jsTrimS v, List.mem_append_right sel (List.mem_singleton_self _),
    by simpa using selKey_trim v⟩

set_option maxRecDepth 20000 in
/-- Claim C7, counterexample: on a 351-candidate list with both batches
rendered (cursor at 351), activating the row "B" runs `ddRebuild`, which
resets the render cursor to 350 (the first batch) instead of leaving it
unchanged. -/
theorem c7_row_toggle_counterexample : ¬ claimRowLocal := by
  intro h
  have h2 := (h manyOptions ("") [] ddTwoBatches ("B")).1
  exact absurd h2 (by decide)

/-- Claim C7 as amended: activating a rendered dropdown row does toggle the
value's membership (under the store's invariant) and does trigger the
debounced fetch, but it then calls `ddRebuild` rather than repainting one
row: the filtered sequence is recomputed from the live input, the render
cursor is reset to min(350, length), and the rendered rows are replaced by
the first batch, re-marked against the new selection. -/
theorem c7_row_toggle_rebuilds (options : List String) (inputVal : String)
    (sel : List String) (st : DDSt) (v : String)
    (hinv : SelInv sel) (hv : jsTrimS v ≠ "") :
    isOn (rowActivate options inputVal sel st v).1 v = !(isOn sel v) ∧
    (rowActivate options inputVal sel st v).2.filtered =
      ddFilterList options (jsUpperS (jsTrimS inputVal)) ∧
    (rowActivate options inputVal sel st v).2.idx =
      min DD_BATCH (ddFilterList options (jsUpperS (jsTrimS inputVal))).length ∧
    (rowActivate options inputVal sel st v).2.rows =
      ((ddFilterList options (jsUpperS (jsTrimS inputVal))).take DD_BATCH).map
        (fun x => (x, isOn (rowActivate options inputVal sel st v).1 x)) := by
  refine ⟨?_, ?_, ?_, ?_⟩
  · by_cases ht : isOn sel v = true
    · rw [show (rowActivate options inputVal sel st v).1 = removeValue sel v from by
        simp [rowActivate, ht]]
      rw [isOn_removeValue sel v hinv.2 ht, ht]
      rfl
    · have ht2 : isOn sel v = false := by simpa using ht
      rw [show (rowActivate options inputVal sel st v).1 = uniqPush sel v from by
        simp [rowActivate, ht2]]
      rw [isOn_uniqPush sel v hinv hv ht2, ht2]
      rfl
  · simp only [rowActivate, ddRebuild, ddRenderNext]
    by_cases he : (ddFilterList options (jsUpperS (jsTrimS inputVal))).isEmpty <;>
      simp [he]
  · simp only [rowActivate, ddRebuild, ddRenderNext]
    by_cases he : (ddFilterList options (jsUpperS (jsTrimS inputVal))).isEmpty
    · have he2 := List.isEmpty_iff.mp he
      simp [he, he2]
    · simp [he, DD_BATCH]
  · simp only [rowActivate, ddRebuild, ddRenderNext]
    by_cases he : (ddFilterList options (jsUpperS (jsTrimS inputVal))).isEmpty
    · have he2 := List.isEmpty_iff.mp he
      simp [he, he2]
    · simp only [he, Bool.false_eq_true, if_false, Nat.zero_add, List.drop_zero,
        Nat.sub_zero, List.nil_append, if_true]
      rw [take_min_length]

/-- Claim C7, witness for the amended theorem at a concrete two-candidate
dropdown. -/
theorem c7_row_toggle_rebuilds_witness :
    (SelInv ["Law"] ∧ jsTrimS ("Law") ≠ "") ∧
    (isOn (rowActivate ["Law", "Medicine"] ("") ["Law"] ⟨"", 0, [], []⟩ ("Law")).1 ("Law") =
      !(isOn ["Law"] ("Law")) ∧
    (rowActivate ["Law", "Medicine"] ("") ["Law"] ⟨"", 0, [], []⟩ ("Law")).2.filtered =
      ddFilterList ["Law", "Medicine"] (jsUpperS (jsTrimS (""))) ∧
    (rowActivate ["Law", "Medicine"] ("") ["Law"] ⟨"", 0, [], []⟩ ("Law")).2.idx =
      min DD_BATCH (ddFilterList ["Law", "Medicine"] (jsUpperS (jsTrimS ("")))).length ∧
    (rowActivate ["Law", "Medicine"] ("") ["Law"] ⟨"", 0, [], []⟩ ("Law")).2.rows =
      ((ddFilterList ["Law", "Medicine"] (jsUpperS (jsTrimS ("")))).take DD_BATCH).map
        (fun x => (x, isOn (rowActivate ["Law", "Medicine"] ("") ["Law"]
          ⟨"", 0, [], []⟩ ("Law")).1 x))) :=
  ⟨⟨by decide, by decide⟩,
   c7_row_toggle_rebuilds ["Law", "Medicine"] ("") ["Law"] ⟨"", 0, [], []⟩ ("Law")
     (by decide) (by decide)⟩

/-- Claim C8, counterexample: the chips-variant `readFiltersFromUI` does not
clamp; the limit input "999999" is transmitted as 999999, far above 5000. -/
theorem c8_limit_counterexample : ¬ claimLimitClamped := by
  intro h
  have h2 := (h (some ("999999"))).2.2
  exact absurd h2 (by decide)

/-- Claim C8 as amended: the legacy-variant `readFiltersFromUI` (app.js lines
201-213) clamps the parsed limit to 50-5000 and defaults to 500 when the
field is absent or does not parse; the chips-variant `readFiltersFromUI`
(app.js lines 868-876) shares the parse and the 500 default but transmits
the parsed integer unclamped. -/
theorem c8_limit_clamp :
    (∀ raw : Option String,
      50 ≤ readFiltersLimitLegacy raw ∧ readFiltersLimitLegacy raw ≤ 5000) ∧
    (readFiltersLimitLegacy none = 500 ∧ readFiltersLimitChips none = 500) ∧
    (∀ s : String, s ≠ "" → jsParseInt s = none →
      readFiltersLimitLegacy (some s) = 500 ∧ readFiltersLimitChips (some s) = 500) ∧
    (∀ (s : String) (n : Int), s ≠ "" → jsParseInt s = some n →
      readFiltersLimitChips (some s) = n) := by
  refine ⟨?_, ⟨by decide, by decide⟩, ?_, ?_⟩
  · intro raw
    unfold readFiltersLimitLegacy
    cases h : jsParseInt (limitInput raw) with
    | none => norm_num
    | some n =>
      constructor
      · exact le_max_left 50 (min n 5000)
      · exact max_le (by norm_num) (min_le_right n 5000)
  · intro s hs hp
    unfold readFiltersLimitLegacy readFiltersLimitChips
    simp [limitInput, hs, hp]
  · intro s n hs hp
    unfold readFiltersLimitChips
    simp [limitInput, hs, hp]

/-- Claim C8, witness: the amended theorem at the inputs "999999" (parses,
transmitted unclamped by the chips variant, clamped by the legacy variant)
and at an unparseable input. -/
theorem c8_limit_clamp_witness :
    (50 ≤ readFiltersLimitLegacy (some ("999999")) ∧
      readFiltersLimitLegacy (some ("999999")) ≤ 5000) ∧
    (("abc" : String) ≠ "" ∧ jsParseInt ("abc") = none ∧
      readFiltersLimitLegacy (some ("abc")) = 500 ∧
      readFiltersLimitChips (some ("abc")) = 500) ∧
    (("999999" : String) ≠ "" ∧ jsParseInt ("999999") = some 999999 ∧
      readFiltersLimitChips (some ("999999")) = 999999) :=
  ⟨c8_limit_clamp.1 (some ("999999")),
   ⟨by decide, by decide,
    c8_limit_clamp.2.2.1 ("abc") (by decide) (by decide)⟩,
   ⟨by decide, by decide,
    c8_limit_clamp.2.2.2 ("999999") 999999 (by decide) (by decide)⟩⟩

theorem stepOrch_respL_waiting_ok (s : OrchSt) (e : Nat) (p : String) (rows : Rows)
    (h : s.pend e = some (p, .waiting)) :
    stepOrch s (.respLeads e (.ok rows)) = setCycle s e p (.gotLeads rows) := by
  show leadsStep s e (.ok rows) = _
  unfold leadsStep
  rw [h]

theorem stepOrch_respL_gotK_ok (s : OrchSt) (e : Nat) (p k : String) (rows : Rows)
    (h : s.pend e = some (p, .gotKpis k)) :
    stepOrch s (.respLeads e (.ok rows)) = applyPair s e p rows k := by
  show leadsStep s e (.ok rows) = _
  unfold leadsStep
  rw [h]

theorem stepOrch_respL_waiting_err (s : OrchSt) (e : Nat) (p m : String)
    (h : s.pend e = some (p, .waiting)) :
    stepOrch s (.respLeads e (.err m)) = failCycle s e p := by
  show leadsStep s e (.err m) = _
  unfold leadsStep
  rw [h]

theorem stepOrch_respL_gotK_err (s : OrchSt) (e : Nat) (p k m : String)
    (h : s.pend e = some (p, .gotKpis k)) :
    stepOrch s (.respLeads e (.err m)) = failCycle s e p := by
  show leadsStep s e (.err m) = _
  unfold leadsStep
  rw [h]

theorem stepOrch_respL_gotL (s : OrchSt) (e : Nat) (p : String) (rows0 : Rows)
    (r : FetchRes Rows) (h : s.pend e = some (p, .gotLeads rows0)) :
    stepOrch s (.respLeads e r) = s := by
  show leadsStep s e r = s
  unfold leadsStep
  rw [h]

theorem stepOrch_respL_closed (s : OrchSt) (e : Nat) (p : String)
    (r : FetchRes Rows) (h : s.pend e = some (p, .closed)) :
    stepOrch s (.respLeads e r) = s := by
  show leadsStep s e r = s
  unfold leadsStep
  rw [h]

theorem stepOrch_respL_none (s : OrchSt) (e : Nat)
    (r : FetchRes Rows) (h : s.pend e = none) :
    stepOrch s (.respLeads e r) = s := by
  show leadsStep s e r = s
  unfold leadsStep
  rw [h]

theorem stepOrch_respK_waiting_ok (s : OrchSt) (e : Nat) (p k : String)
    (h : s.pend e = some (p, .waiting)) :
    stepOrch s (.respKpis e (.ok k)) = setCycle s e p (.gotKpis k) := by
  show kpisStep s e (.ok k) = _
  unfold kpisStep
  rw [h]

theorem stepOrch_respK_gotL_ok (s : OrchSt) (e : Nat) (p k : String) (rows : Rows)
    (h : s.pend e = some (p, .gotLeads rows)) :
    stepOrch s (.respKpis e (.ok k)) = applyPair s e p rows k := by
  show kpisStep s e (.ok k) = _
  unfold kpisStep
  rw [h]

theorem stepOrch_respK_waiting_err (s : OrchSt) (e : Nat) (p m : String)
    (h : s.pend e = some (p, .waiting)) :
    stepOrch s (.respKpis e (.err m)) = failCycle s e p := by
  show kpisStep s e (.err m) = _
  unfold kpisStep
  rw [h]

theorem stepOrch_respK_gotL_err (s : OrchSt) (e : Nat) (p m : String) (rows : Rows)
    (h : s.pend e = some (p, .gotLeads rows)) :
    stepOrch s (.respKpis e (.err m)) = failCycle s e p := by
  show kpisStep s e (.err m) = _
  unfold kpisStep
  rw [h]

theorem stepOrch_respK_gotK (s : OrchSt) (e : Nat) (p k0 : String)
    (r : FetchRes String) (h : s.pend e = some (p, .gotKpis k0)) :
    stepOrch s (.respKpis e r) = s := by
  show kpisStep s e r = s
  unfold kpisStep
  rw [h]

theorem stepOrch_respK_closed (s : OrchSt) (e : Nat) (p : String)
    (r : FetchRes String) (h : s.pend e = some (p, .closed)) :
    stepOrch s (.respKpis e r) = s := by
  show kpisStep s e r = s
  unfold kpisStep
  rw [h]

theorem stepOrch_respK_none (s : OrchSt) (e : Nat)
    (r : FetchRes String) (h : s.pend e = none) :
    stepOrch s (.respKpis e r) = s := by
  show kpisStep s e r = s
  unfold kpisStep
  rw [h]

theorem pendSound_extend (tr : List FEv) (s : OrchSt) (ev : FEv)
    (h : PendSound tr s) : PendSound (tr ++ [ev]) s := by
  obtain ⟨h1, h2, h3⟩ := h
  refine ⟨?_, ?_, ?_⟩
  · intro e p rows hp
    exact List.mem_append_left _ (h1 e p rows hp)
  · intro e p k hp
    exact List.mem_append_left _ (h2 e p k hp)
  · intro a ha
    exact ⟨List.mem_append_left _ (h3 a ha).1, List.mem_append_left _ (h3 a ha).2⟩

theorem pendSound_setCycle (tr : List FEv) (s : OrchSt) (e : Nat) (p : String)
    (c : PendCycle) (h : PendSound tr s)
    (hL : ∀ rows, c = .gotLeads rows → FEv.respLeads e (.ok rows) ∈ tr)
    (hK : ∀ k, c = .gotKpis k → FEv.respKpis e (.ok k) ∈ tr) :
    PendSound tr (setCycle s e p c) := by
  obtain ⟨h1, h2, h3⟩ := h
  refine ⟨?_, ?_, h3⟩
  · intro e2 p2 rows hp
    by_cases he : e2 = e
    · subst he
      have hp2 : some (p, c) = some (p2, PendCycle.gotLeads rows) := by
        simpa [setCycle] using hp
      have hc : c = .gotLeads rows := by
        have := hp2
        simp at this
        exact this.2
      exact hL rows hc
    · have hp2 : s.pend e2 = some (p2, .gotLeads rows) := by
        simpa [setCycle, he] using hp
      exact h1 e2 p2 rows hp2
  · intro e2 p2 k hp
    by_cases he : e2 = e
    · subst he
      have hp2 : some (p, c) = some (p2, PendCycle.gotKpis k) := by
        simpa [setCycle] using hp
      have hc : c = .gotKpis k := by
        have := hp2
        simp at this
        exact this.2
      exact hK k hc
    · have hp2 : s.pend e2 = some (p2, .gotKpis k) := by
        simpa [setCycle, he] using hp
      exact h2 e2 p2 k hp2

theorem pendSound_applyPair (tr : List FEv) (s : OrchSt) (e : Nat) (p : String)
    (rows : Rows) (k : String) (h : PendSound tr s)
    (hL : FEv.respLeads e (.ok rows) ∈ tr) (hK : FEv.respKpis e (.ok k) ∈ tr) :
    PendSound tr (applyPair s e p rows k) := by
  have hbase := pendSound_setCycle tr s e p .closed h
    (fun rows2 hc => by cases hc) (fun k2 hc => by cases hc)
  obtain ⟨h1, h2, h3⟩ := hbase
  refine ⟨h1, h2, ?_⟩
  intro a ha
  have ha2 : a ∈ s.applied ++ [(⟨e, p, rows, k⟩ : AppliedEntry)] := by
    simpa [applyPair, setCycle] using ha
  rcases List.mem_append.mp ha2 with ha3 | ha3
  · exact h.2.2 a ha3
  · have ha4 : a = (⟨e, p, rows, k⟩ : AppliedEntry) := by simpa using ha3
    subst ha4
    exact ⟨hL, hK⟩

theorem pendSound_failCycle (tr : List FEv) (s : OrchSt) (e : Nat) (p : String)
    (h : PendSound tr s) : PendSound tr (failCycle s e p) := by
  have hbase := pendSound_setCycle tr s e p .closed h
    (fun rows2 hc => by cases hc) (fun k2 hc => by cases hc)
  obtain ⟨h1, h2, h3⟩ := hbase
  exact ⟨h1, h2, fun a ha => h.2.2 a (by simpa [failCycle, setCycle] using ha)⟩

theorem stepOrch_sound (tr : List FEv) (s : OrchSt) (ev : FEv)
    (h : PendSound tr s) : PendSound (tr ++ [ev]) (stepOrch s ev) := by
  have hext := pendSound_extend tr s ev h
  have hmem : ev ∈ tr ++ [ev] :=
    List.mem_append_right tr (List.mem_singleton_self ev)
  cases ev with
  | fire p =>
    obtain ⟨h1, h2, h3⟩ := hext
    show PendSound (tr ++ [FEv.fire p]) (fireStep s p)
    refine ⟨?_, ?_, h3⟩
    · intro e2 p2 rows hp
      by_cases he : e2 = s.count
      · subst he
        simp [fireStep] at hp
      · exact h1 e2 p2 rows (by simpa [fireStep, he] using hp)
    · intro e2 p2 k hp
      by_cases he : e2 = s.count
      · subst he
        simp [fireStep] at hp
      · exact h2 e2 p2 k (by simpa [fireStep, he] using hp)
  | respLeads e r =>
    cases hp : s.pend e with
    | none =>
      rw [stepOrch_respL_none s e r hp]
      exact hext
    | some pc =>
      obtain ⟨p, c⟩ := pc
      cases c with
      | waiting =>
        cases r with
        | ok rows =>
          rw [stepOrch_respL_waiting_ok s e p rows hp]
          refine pendSound_setCycle _ _ _ _ _ hext ?_ ?_
          · intro rows2 hc
            have : rows2 = rows := by cases hc; rfl
            subst this
            exact hmem
          · intro k hc
            cases hc
        | err m =>
          rw [stepOrch_respL_waiting_err s e p m hp]
          exact pendSound_failCycle _ _ _ _ hext
      | gotLeads rows0 =>
        rw [stepOrch_respL_gotL s e p rows0 r hp]
        exact hext
      | gotKpis k =>
        cases r with
        | ok rows =>
          rw [stepOrch_respL_gotK_ok s e p k rows hp]
          refine pendSound_applyPair _ _ _ _ _ _ hext hmem ?_
          exact List.mem_append_left _ (h.2.1 e p k hp)
        | err m =>
          rw [stepOrch_respL_gotK_err s e p k m hp]
          exact pendSound_failCycle _ _ _ _ hext
      | closed =>
        rw [stepOrch_respL_closed s e p r hp]
        exact hext
  | respKpis e r =>
    cases hp : s.pend e with
    | none =>
      rw [stepOrch_respK_none s e r hp]
      exact hext
    | some pc =>
      obtain ⟨p, c⟩ := pc
      cases c with
      | waiting =>
        cases r with
        | ok k =>
          rw [stepOrch_respK_waiting_ok s e p k hp]
          refine pendSound_setCycle _ _ _ _ _ hext ?_ ?_
          · intro rows2 hc
            cases hc
          · intro k2 hc
            have : k2 = k := by cases hc; rfl
            subst this
            exact hmem
        | err m =>
          rw [stepOrch_respK_waiting_err s e p m hp]
          exact pendSound_failCycle _ _ _ _ hext
      | gotLeads rows =>
        cases r with
        | ok k =>
          rw [stepOrch_respK_gotL_ok s e p k rows hp]
          refine pendSound_applyPair _ _ _ _ _ _ hext ?_ hmem
          exact List.mem_append_left _ (h.1 e p rows hp)
        | err m =>
          rw [stepOrch_respK_gotL_err s e p m rows hp]
          exact pendSound_failCycle _ _ _ _ hext
      | gotKpis k0 =>
        rw [stepOrch_respK_gotK s e p k0 r hp]
        exact hext
      | closed =>
        rw [stepOrch_respK_closed s e p r hp]
        exact hext

theorem runOrch_sound_aux : ∀ (tr pre : List FEv) (s : OrchSt),
    PendSound pre s → PendSound (pre ++ tr) (tr.foldl stepOrch s)
  | [], pre, s, h => by simpa using h
  | ev :: t, pre, s, h => by
    have h2 := stepOrch_sound pre s ev h
    have h3 := runOrch_sound_aux t (pre ++ [ev]) (stepOrch s ev) h2
    simpa [List.append_assoc] using h3

/-- Claim C1, counterexample: two overlapping debounced cycles whose pairs
complete out of order.  The code has no FetchEpoch: both pairs are applied
(two applications, not at most one), and the view ends on cycle 0 — the
last-completing pair — although cycle 1, the highest epoch, also completed. -/
theorem c1_epoch_counterexample : ¬ claimEpochMonotone := by
  intro h
  have h2 := (h traceTwoCycles).1
  exact absurd h2 (by decide)

/-- Claim C1 as amended: the orchestrator applies the result pair of every
cycle whose two responses both arrive successfully, in completion order, with
no discarding of superseded cycles (see the counterexample for two cycles
applied out of epoch order); what does hold is that every application is a
matched pair — the table rows and the KPI payload applied together are the
recorded leads response and KPI response of one and the same cycle of the
trace, never a half pair or a cross-cycle mix. -/
theorem c1_applied_pairs_sound (tr : List FEv) (a : AppliedEntry)
    (ha : a ∈ (runOrch tr).applied) :
    FEv.respLeads a.epoch (.ok a.rows) ∈ tr ∧
    FEv.respKpis a.epoch (.ok a.kpis) ∈ tr := by
  have base : PendSound [] initOrch := by
    refine ⟨?_, ?_, ?_⟩
    · intro e p rows hp
      simp [initOrch] at hp
    · intro e p k hp
      simp [initOrch] at hp
    · intro x hx
      simp [initOrch] at hx
  have main := runOrch_sound_aux tr [] initOrch base
  rw [List.nil_append] at main
  exact main.2.2 a ha

/-- Claim C1, witness: the amended theorem at the out-of-order trace, for the
pair of cycle 1. -/
theorem c1_applied_pairs_sound_witness :
    ((⟨1, ("p"), ["b"], ("k2")⟩ : AppliedEntry) ∈ (runOrch traceTwoCycles).applied) ∧
    (FEv.respLeads 1 (.ok ["b"]) ∈ traceTwoCycles ∧
     FEv.respKpis 1 (.ok ("k2")) ∈ traceTwoCycles) :=
  ⟨by decide,
   c1_applied_pairs_sound traceTwoCycles ⟨1, ("p"), ["b"], ("k2")⟩ (by decide)⟩

/-- Claim C2, counterexample: after cycle 0 succeeds with rows ["a"] under
params "p", cycle 1 fires with the same params "p" and its KPI request fails;
the catch block renders the empty placeholder, so the previously shown table
is cleared even though the active filter state equals the one that produced
the last success. -/
theorem c2_failure_counterexample : ¬ claimFailurePreserves := by
  intro h
  have h2 := h traceFailAfterSuccess 1 ("boom") ("p") (.gotLeads ["b"])
    (by decide) (by decide) ⟨0, ("p"), ["a"], ("k1")⟩ (by decide) rfl
  exact absurd h2 (by decide)

/-- Claim C2 as amended: when either request of an open cycle fails, the
catch block applies no data from the half-succeeded pair (the applied log is
unchanged and the KPI view is untouched in this variant) and displays the
fixed failure message, but it clears the table to the empty placeholder
instead of preserving the last successfully rendered rows — even when the
active filter state is the one that produced the last success (the legacy
variant at app.js lines 269-274 additionally zeroes the KPI labels). -/
theorem c2_failure_clears_table (s : OrchSt) (e : Nat) (m p : String)
    (c : PendCycle) (hp : s.pend e = some (p, c)) (ev : FEv)
    (hev : (ev = .respLeads e (.err m) ∧ (c = .waiting ∨ ∃ k, c = .gotKpis k)) ∨
           (ev = .respKpis e (.err m) ∧ (c = .waiting ∨ ∃ rows, c = .gotLeads rows))) :
    (stepOrch s ev).applied = s.applied ∧
    (stepOrch s ev).kview = s.kview ∧
    (stepOrch s ev).table = TableView.noLeads ∧
    (stepOrch s ev).statusLine = "Falha ao carregar dados do BigQuery." := by
  rcases hev with ⟨rfl, hc⟩ | ⟨rfl, hc⟩
  · rcases hc with rfl | ⟨k, rfl⟩
    · rw [stepOrch_respL_waiting_err s e p m hp]
      exact ⟨rfl, rfl, rfl, rfl⟩
    · rw [stepOrch_respL_gotK_err s e p k m hp]
      exact ⟨rfl, rfl, rfl, rfl⟩
  · rcases hc with rfl | ⟨rows, rfl⟩
    · rw [stepOrch_respK_waiting_err s e p m hp]
      exact ⟨rfl, rfl, rfl, rfl⟩
    · rw [stepOrch_respK_gotL_err s e p m rows hp]
      exact ⟨rfl, rfl, rfl, rfl⟩

/-- Claim C2, witness: the amended theorem at a concrete one-cycle state
holding its records response when the KPI response fails. -/
theorem c2_failure_clears_table_witness :
    ((runOrch traceStartCycle).pend 0 = some (("p"), .gotLeads ["a"])) ∧
    ((stepOrch (runOrch traceStartCycle) (.respKpis 0 (.err ("x")))).applied =
        (runOrch traceStartCycle).applied ∧
     (stepOrch (runOrch traceStartCycle) (.respKpis 0 (.err ("x")))).kview =
        (runOrch traceStartCycle).kview ∧
     (stepOrch (runOrch traceStartCycle) (.respKpis 0 (.err ("x")))).table =
        TableView.noLeads ∧
     (stepOrch (runOrch traceStartCycle) (.respKpis 0 (.err ("x")))).statusLine =
        "Falha ao carregar dados do BigQuery.") :=
  ⟨by decide,
   c2_failure_clears_table (runOrch traceStartCycle) 0 ("x") ("p")
     (.gotLeads ["a"]) (by decide) (.respKpis 0 (.err ("x")))
     (Or.inr ⟨rfl, Or.inr ⟨["a"], rfl⟩⟩)⟩

theorem replAll_append (a b : List Char) (c : Char) (r : List Char) :
    replAll (a ++ b) c r = replAll a c r ++ replAll b c r := by
  simp [replAll]

theorem escapeChain_append (a b : List Char) :
    escapeChain (a ++ b) = escapeChain a ++ escapeChain b := by
  simp [escapeChain, replAll_append]

theorem escapeChain_eq_flatMap (l : List Char) :
    escapeChain l = l.flatMap entityOf := by
  induction l with
  | nil => rfl
  | cons a t ih =>
    have hsplit : a :: t = [a] ++ t := rfl
    rw [hsplit, escapeChain_append, List.flatMap_append, ih]
    have hone : escapeChain [a] = entityOf a := by
      by_cases h1 : a = '&'
      · subst h1; rfl
      · by_cases h2 : a = '<'
        · subst h2; rfl
        · by_cases h3 : a = '>'
          · subst h3; rfl
          · by_cases h4 : a = Char.ofNat 34
            · subst h4; rfl
            · by_cases h5 : a = Char.ofNat 39
              · subst h5; rfl
              · simp [escapeChain, replAll, entityOf, h1, h2, h3, h4, h5]
    rw [hone]
    simp [List.flatMap_cons]

theorem mem_entityOf_not_forbidden (a c : Char) (h : c ∈ entityOf a) :
    ¬ forbiddenChar c := by
  unfold entityOf at h
  split_ifs at h with h1 h2 h3 h4 h5
  · rw [show ("&amp;").data = ['&', 'a', 'm', 'p', ';'] from rfl] at h
    simp only [List.mem_cons, List.not_mem_nil, or_false] at h
    rcases h with rfl | rfl | rfl | rfl | rfl <;> decide
  · rw [show ("&lt;").data = ['&', 'l', 't', ';'] from rfl] at h
    simp only [List.mem_cons, List.not_mem_nil, or_false] at h
    rcases h with rfl | rfl | rfl | rfl <;> decide
  · rw [show ("&gt;").data = ['&', 'g', 't', ';'] from rfl] at h
    simp only [List.mem_cons, List.not_mem_nil, or_false] at h
    rcases h with rfl | rfl | rfl | rfl <;> decide
  · rw [show ("&quot;").data = ['&', 'q', 'u', 'o', 't', ';'] from rfl] at h
    simp only [List.mem_cons, List.not_mem_nil, or_false] at h
    rcases h with rfl | rfl | rfl | rfl | rfl | rfl <;> decide
  · rw [show ("&#039;").data = ['&', '#', '0', '3', '9', ';'] from rfl] at h
    simp only [List.mem_cons, List.not_mem_nil, or_false] at h
    rcases h with rfl | rfl | rfl | rfl | rfl | rfl <;> decide
  · have hca : c = a := by simpa using h
    subst hca
    intro hf
    rcases hf with rfl | rfl | rfl | rfl
    · exact h2 rfl
    · exact h3 rfl
    · exact h4 rfl
    · exact h5 rfl

theorem escapeHtml_no_forbidden (v : Option String) (c : Char)
    (hc : c ∈ (escapeHtml v).data) : ¬ forbiddenChar c := by
  cases v with
  | none => simp [escapeHtml] at hc
  | some s =>
    have hc2 : c ∈ escapeChain s.data := hc
    rw [escapeChain_eq_flatMap] at hc2
    rcases List.mem_flatMap.mp hc2 with ⟨a, _, hca⟩
    exact mem_entityOf_not_forbidden a c hca

/-- Claim C9: `escapeHtml` maps `null`/`undefined` to the empty string and
replaces each of &, <, >, double quote and single quote by its HTML entity
(the output is exactly the input flat-mapped through the entity table), so
its output never contains <, >, double quote or single quote; and every
lead-record field that `renderTable` puts in a row cell goes through
`escapeHtml` — for every date formatter, every cell of every row is free of
those four characters. -/
theorem c9_escape_html_safety :
    escapeHtml none = "" ∧
    (∀ s : String, (escapeHtml (some s)).data = s.data.flatMap entityOf) ∧
    (∀ (v : Option String) (c : Char), c ∈ (escapeHtml v).data → ¬ forbiddenChar c) ∧
    (∀ (fmt : Option String → String) (r : Lead),
      ∀ cell ∈ rowCells fmt r, ∀ c ∈ cell.data, ¬ forbiddenChar c) := by
  refine ⟨rfl, ?_, escapeHtml_no_forbidden, ?_⟩
  · intro s
    exact escapeChain_eq_flatMap s.data
  · intro fmt r cell hcell c hc
    simp only [rowCells, List.mem_cons, List.not_mem_nil, or_false] at hcell
    rcases hcell with rfl | rfl | rfl | rfl | rfl | rfl | rfl | rfl | rfl | rfl <;>
      exact escapeHtml_no_forbidden _ c hc

/-- Claim C9, witness: the safety components applied at a concrete escaped
string and a concrete lead row. -/
theorem c9_escape_html_safety_witness :
    (('a' : Char) ∈ (escapeHtml (some ("a<b"))).data) ∧ ¬ forbiddenChar 'a' :=
  ⟨by decide, c9_escape_html_safety.2.2.1 (some ("a<b")) 'a' (by decide)⟩

/-- Claim C10: `fillDatalist` renders at most the first 50000 entries of an
array argument — the rendered list is a prefix of the input, equal to it when
the input has at most 50000 entries — and renders nothing for a non-array
argument; the rendered length never exceeds 50000. -/
theorem c10_datalist_cap :
    (∀ v : JsValue, (fillDatalist v).length ≤ 50000) ∧
    (∀ l : List String, ∃ t, l = fillDatalist (.arr l) ++ t) ∧
    (∀ l : List String, l.length ≤ 50000 → fillDatalist (.arr l) = l) ∧
    fillDatalist .nonArray = [] := by
  refine ⟨?_, ?_, ?_, rfl⟩
  · intro v
    cases v with
    | arr l =>
      simp only [fillDatalist, List.length_take]
      exact Nat.min_le_left 50000 l.length
    | nonArray => simp [fillDatalist]
  · intro l
    exact ⟨l.drop 50000, (List.take_append_drop 50000 l).symm⟩
  · intro l hl
    exact List.take_of_length_le hl

/-- Claim C10, witness: the cap theorem applied at a one-element array. -/
theorem c10_datalist_cap_witness :
    ((["x"] : List String).length ≤ 50000) ∧ fillDatalist (.arr ["x"]) = ["x"] :=
  ⟨by norm_num, c10_datalist_cap.2.2.1 ["x"] (by norm_num)⟩
